import Mathlib

set_option maxRecDepth 8000

/-!
Shallow embedding of `src/run.py` (class `RoundcubeDownloader`) and proofs of the
behavioural claims about it.  Python strings become Lean `String`s, the IMAP
session, the filesystem and the codec layer become explicit oracles
(`Bool`- or `Except`-valued functions), and the download loop becomes a pure
state-passing function.  Every definition is translated from the source file;
the one definition following the specification text instead is clearly marked.
-/

namespace Roundcube

/-- Characters replaced by `sanitize_filename` (the regex `[<>:"/\\|?*]`,
run.py line 64). -/
def illegalChars : List Char := ['<', '>', ':', '\"', '/', '\\', '|', '?', '*']

/-- `re.sub(r'[<>:"/\\|?*]', '_', filename)` (run.py line 64). -/
def pySub (s : String) : String :=
  ⟨s.data.map (fun c => if c ∈ illegalChars then '_' else c)⟩

/-- The character set of `str.strip('. ')` (run.py line 65). -/
def stripCh (c : Char) : Bool := c = '.' || c = ' '

/-- `filename.strip('. ')` (run.py line 65): remove leading and trailing
dots and spaces. -/
def pyStrip (s : String) : String :=
  ⟨((s.data.dropWhile stripCh).reverse.dropWhile stripCh).reverse⟩

/-- `str.rfind` for a single character, returning -1 when absent, as used by
`os.path.splitext`. -/
def pyRfind (c : Char) (l : List Char) : Int :=
  l.enum.foldl (fun acc p => if p.2 = c then (p.1 : Int) else acc) (-1)

/-- `os.path.splitext` (posix): split at the last dot that lies after the last
path separator, unless only dots occur between the separator and that dot
(leading dots of the basename never start an extension). -/
def pySplitext (s : String) : String × String :=
  let l := s.data
  let sepIdx := pyRfind '/' l
  let dotIdx := pyRfind '.' l
  if (decide (sepIdx < dotIdx) &&
      l.enum.any (fun p =>
        decide (sepIdx < (p.1 : Int)) && decide ((p.1 : Int) < dotIdx) && !(p.2 == '.'))) then
    (⟨l.take dotIdx.toNat⟩, ⟨l.drop dotIdx.toNat⟩)
  else
    (s, "")

/-- Python slicing `s[:j]` for a possibly negative bound `j`. -/
def pySliceTo (s : String) (j : Int) : String :=
  if 0 ≤ j then ⟨s.data.take j.toNat⟩
  else ⟨s.data.take (s.data.length - (-j).toNat)⟩

/-- `RoundcubeDownloader.sanitize_filename` (run.py lines 58-72). -/
def sanitize_filename (filename : String) : String :=
  if filename = "" then "unnamed_file"
  else
    let f2 := pyStrip (pySub filename)
    if 200 < f2.length then
      let ne := pySplitext f2
      pySliceTo ne.1 (200 - (ne.2.length : Int)) ++ ne.2
    else f2

/-- `str.upper()` at the character level (kernel-reducible form of
`String.toUpper`). -/
def pyUpper (s : String) : String := ⟨s.data.map Char.toUpper⟩

/-- `str.lower()` at the character level (kernel-reducible form of
`String.toLower`). -/
def pyLower (s : String) : String := ⟨s.data.map Char.toLower⟩

/-- Substring containment, Python's `sub in s`. -/
def strContains (s sub : String) : Bool :=
  (List.range (s.data.length + 1)).any
    (fun i => (s.data.drop i).take sub.data.length == sub.data)

/-- The `folder_variations` list of `download_all_emails` (run.py lines 241-248). -/
def folderVariations (server folder : String) : List String :=
  [folder,
   "\"" ++ folder ++ "\"",
   pyUpper folder,
   pyLower folder,
   if folder = "INBOX" then folder else "INBOX." ++ folder,
   if strContains (pyLower server) "gmail" then "[Gmail]/" ++ folder else folder]

/-- Folder selection of `download_all_emails` (run.py lines 235-261): try the
requested name verbatim, then each variation in order; the oracle `selectable`
gives the outcome of `imap.select` (an exception counts as failure, caught by
the bare except).  `none` models the `return False` after exhaustion. -/
def select_folder (selectable : String → Bool) (server folder : String) : Option String :=
  if selectable folder then some folder
  else (folderVariations server folder).find? selectable

/-- Folder resolution as worded by the specification (§4.5): verbatim, then
quoted form, upper-case, lower-case, the `INBOX.` form skipped when the request
is already `INBOX`, and the provider form only when the server address signals
the provider.  Stated separately from `select_folder` so the two can be
compared. -/
def select_folder_spec (selectable : String → Bool) (server folder : String) : Option String :=
  if selectable folder then some folder
  else
    ((["\"" ++ folder ++ "\"", pyUpper folder, pyLower folder]
        ++ (if folder = "INBOX" then [] else ["INBOX." ++ folder]))
        ++ (if strContains (pyLower server) "gmail" then ["[Gmail]/" ++ folder] else [])).find?
      selectable

/-- The duplicate-name loop of `save_attachment` (run.py lines 177-183):
candidates `f"{name}_{counter}{ext}"` derived from the original path, counter
starting at 1.  Fuel makes termination explicit; the caller passes enough fuel
for the finite directory. -/
def resolveCollisionGo (existing : List String) (name ext : String) :
    Nat → Nat → Option String
  | _, 0 => none
  | k, fuel + 1 =>
    let cand := name ++ "_" ++ toString k ++ ext
    if cand ∈ existing then resolveCollisionGo existing name ext (k + 1) fuel
    else some cand

/-- Collision resolution of `save_attachment`: keep the path if unused,
otherwise append an incrementing numeric suffix before the extension. -/
def resolveCollision (existing : List String) (filepath : String) : Option String :=
  if filepath ∈ existing then
    let ne := pySplitext filepath
    resolveCollisionGo existing ne.1 ne.2 1 (existing.length + 1)
  else some filepath

/-- `os.path.join(self.base_dir, "attachments", f"email_{email_id}")`
(run.py line 172). -/
def attachment_dir (emailId : Nat) : String :=
  "downloaded_emails/attachments/email_" ++ toString emailId

/-- A sequence of `save_attachment` calls for one message, at filename level:
each call resolves collisions against the directory contents (`os.path.exists`)
and, the write succeeding, the resolved path is added.  Returns the final
directory contents and the saved paths in order. -/
def save_att_names : List String → List String → List String × List String
  | existing, [] => (existing, [])
  | existing, fp :: rest =>
    match resolveCollision existing fp with
    | some p =>
      let r := save_att_names (existing ++ [p]) rest
      (r.1, p :: r.2)
    | none => save_att_names existing rest

/- ------------------------------------------------------------------ -/
/- The progress ledger and the download loop.                          -/
/- ------------------------------------------------------------------ -/

/-- The persisted progress record (run.py lines 82-91); the fields not used by
any claim (server, folder, timestamp, base_dir) are omitted. -/
structure ProgressData where
  lastId : Nat
  total : Nat
  processedCount : Nat
  processedIds : List Nat
deriving DecidableEq

/-- `save_progress` builds its record with
`'processed_count': len(processed_ids)` (run.py line 87). -/
def mkProgress (lastId total : Nat) (processedIds : List Nat) : ProgressData :=
  ⟨lastId, total, processedIds.length, processedIds⟩

/-- In-memory loop state of `download_all_emails`: the `processed_ids` set is
kept as its insertion-ordered duplicate-free list, `archives` records which
message ids had their `.eml` file written during this run, and `saves` records
each `save_progress` call as (loop index, record, write succeeded). -/
structure LoopState where
  processedIds : List Nat
  successful : Nat
  processedCount : Nat
  archives : List Nat
  saves : List (Nat × ProgressData × Bool)
deriving DecidableEq

/-- Checkpoint step at loop index `i` (run.py lines 315-318): save every 10th
index and at the last index of the batch.  The Bool records whether the write
succeeded; `save_progress` swallows a failure (run.py lines 94-98). -/
def stepSave (saveOk : Nat → Bool) (n total i id : Nat) (st : LoopState) : LoopState :=
  if i % 10 == 0 || i == n then
    ⟨st.processedIds, st.successful, st.processedCount, st.archives,
      st.saves ++ [(i, mkProgress id total st.processedIds, saveOk i)]⟩
  else st

/-- Processing step (run.py lines 310-313): on `process_email` success the id
is archived, counted and added to the processed set (the loop guard ensures it
was absent); on failure the state is unchanged. -/
def stepProcess (processOk : Nat → Bool) (id : Nat) (st : LoopState) : LoopState :=
  if processOk id then
    ⟨st.processedIds ++ [id], st.successful + 1, st.processedCount + 1,
      st.archives ++ [id], st.saves⟩
  else st

/-- The per-message loop of `download_all_emails` (run.py lines 297-322):
skip ids already processed, skip on fetch failure (`continue` before the
checkpoint test), archive and record on processing success, and run the
checkpoint test after every non-skipped iteration.  `n` is the batch length,
`total` the enumeration total, `i` the 1-based loop index. -/
def runLoop (fetchOk processOk saveOk : Nat → Bool) (n total : Nat) :
    List Nat → Nat → LoopState → LoopState
  | [], _, st => st
  | id :: rest, i, st =>
    if id ∈ st.processedIds then
      runLoop fetchOk processOk saveOk n total rest (i + 1) st
    else if fetchOk id then
      runLoop fetchOk processOk saveOk n total rest (i + 1)
        (stepSave saveOk n total i id (stepProcess processOk id st))
    else
      runLoop fetchOk processOk saveOk n total rest (i + 1) st

/-- Result of one `download_all_emails` call: `ok` is the returned Bool,
`remaining` the batch after resume filtering, `finalSave` the unconditional
final `save_progress` (run.py lines 324-326). -/
structure RunResult where
  ok : Bool
  st : LoopState
  total : Nat
  remaining : List Nat
  finalSave : Option (ProgressData × Bool)
deriving DecidableEq

/-- Resume filtering (run.py lines 287-291): only applied when resuming AND the
loaded set is non-empty. -/
def downloadRemaining (resumeMode : Bool) (ids0 ids : List Nat) : List Nat :=
  if resumeMode && !ids0.isEmpty then ids.filter (fun id => decide (id ∉ ids0))
  else ids

/-- `download_all_emails` after successful folder selection and search
(run.py lines 271-343): `ids` is the enumeration snapshot, `ids0` the completed
set loaded by `check_resume_option`, and the oracles give the outcome of each
fetch, of each per-message processing, and of each checkpoint write (the final
save is queried at index 0). -/
def download_all_emails (fetchOk processOk saveOk : Nat → Bool)
    (resumeMode : Bool) (ids0 : List Nat) (ids : List Nat) : RunResult :=
  let total := ids.length
  let st0 : LoopState := ⟨ids0, 0, if resumeMode then ids0.length else 0, [], []⟩
  if total = 0 then ⟨true, st0, 0, [], none⟩
  else
    let remaining := downloadRemaining resumeMode ids0 ids
    let stF := runLoop fetchOk processOk saveOk remaining.length total remaining 1 st0
    let fin : Option (ProgressData × Bool) :=
      if remaining.isEmpty then none
      else some (mkProgress (remaining.getLastD 0) total stF.processedIds, saveOk 0)
    ⟨true, stF, total, remaining, fin⟩

/-- An uninterrupted run from no prior state. -/
def single_run (fetchOk processOk saveOk : Nat → Bool) (ids : List Nat) : RunResult :=
  download_all_emails fetchOk processOk saveOk false [] ids

/-- A resumed run whose accepted ledger holds the first `k` ids of the
snapshot (the state after an interruption that processed `k` messages). -/
def resumed_run (fetchOk processOk saveOk : Nat → Bool) (k : Nat) (ids : List Nat) : RunResult :=
  download_all_emails fetchOk processOk saveOk true (ids.take k) ids

/-- The loop indices at which `save_progress` was called during the batch. -/
def savePositions (r : RunResult) : List Nat := r.st.saves.map (fun x => x.1)

/-- Reference description of the checkpoint positions: a save happens at index
`i` exactly when the fetch of the i-th message succeeded and `i` is a multiple
of 10 or the last index. -/
def savePosSpec (fetchOk : Nat → Bool) (n : Nat) : Nat → List Nat → List Nat
  | _, [] => []
  | i, id :: rest =>
    (if fetchOk id && (i % 10 == 0 || i == n) then [i] else [])
      ++ savePosSpec fetchOk n (i + 1) rest

/-- `load_progress` (run.py lines 100-111): `file` is the progress file's
content when present; `parse` is `json.load`, returning `none` on a parse
error (the except clause).  Absent or corrupt both yield `none`. -/
def load_progress (file : Option String) (parse : String → Option ProgressData) :
    Option ProgressData :=
  match file with
  | none => none
  | some s => parse s

/-- `check_resume_option` (run.py lines 113-134): no loadable state means no
prompt and a fresh start; otherwise the user's answer decides. -/
def check_resume_option (loaded : Option ProgressData) (answerYes : Bool) :
    Bool × List Nat :=
  match loaded with
  | none => (false, [])
  | some p => if answerYes then (true, p.processedIds) else (false, [])

/-- Outcome of one `save_progress` call (run.py lines 94-98): the try/except
converts a write failure into a printed warning, so the caller always
continues. -/
inductive SaveOutcome
  | written
  | warned
deriving DecidableEq

/-- `save_progress` never propagates its write failure. -/
def save_progress_outcome (write : Except Unit Unit) : SaveOutcome :=
  match write with
  | .ok _ => .written
  | .error _ => .warned

/- ------------------------------------------------------------------ -/
/- Header decoding and per-message persistence.                        -/
/- ------------------------------------------------------------------ -/

/-- One fragment produced by `email.header.decode_header`: either text, or
bytes with an optional declared charset. -/
inductive Frag
  | str (s : String)
  | bytes (b : List Nat) (enc : Option String)
deriving DecidableEq

/-- `decode_mime_words` (run.py lines 42-56) over the fragment list:
`fragment.decode(encoding)` may raise for a declared charset (oracle `dec`);
the `utf-8, errors='ignore'` fallback is total (oracle `u8`).  Fragments are
concatenated left to right; the first failing fragment raises. -/
def decode_mime_words (dec : String → List Nat → Except Unit String)
    (u8 : List Nat → String) : List Frag → Except Unit String
  | [] => .ok ""
  | .str s :: fs => (decode_mime_words dec u8 fs).map (fun r => s ++ r)
  | .bytes b none :: fs => (decode_mime_words dec u8 fs).map (fun r => u8 b ++ r)
  | .bytes b (some e) :: fs =>
    match dec e b with
    | .error x => .error x
    | .ok s => (decode_mime_words dec u8 fs).map (fun r => s ++ r)

/-- One MIME part as `process_email` sees it: the string
`str(part.get("Content-Disposition"))`, the declared filename (as header
fragments) when present, and the content type. -/
structure Part where
  dispo : String
  filename : Option (List Frag)
  ctype : String
deriving DecidableEq

/-- A parsed message: Subject and From as optional header fragment lists
(absent header means `get` returns the default), multipart flag, and parts. -/
structure Msg where
  subject : Option (List Frag)
  sender : Option (List Frag)
  multipart : Bool
  parts : List Part
deriving DecidableEq

/-- Extension synthesis of `save_attachment` (run.py lines 161-169). -/
def synthExt (ct : String) : String :=
  if strContains ct "image" then ".jpg"
  else if strContains ct "text" then ".txt"
  else if strContains ct "pdf" then ".pdf"
  else ".bin"

/-- Attachment filename derivation in `save_attachment` (run.py lines 156-170):
a declared name is decoded (which may raise, outside any local try) and
sanitized; otherwise a name is synthesized from the content type. -/
def attachment_filename (dec : String → List Nat → Except Unit String)
    (u8 : List Nat → String) (emailId attCount : Nat) (p : Part) :
    Except Unit String :=
  match p.filename with
  | some frs => (decode_mime_words dec u8 frs).map sanitize_filename
  | none =>
    .ok ("attachment_" ++ toString emailId ++ "_" ++ toString attCount ++ synthExt p.ctype)

/-- The attachment pass of `process_email` (run.py lines 217-225) together with
the body of each `save_attachment` call: parts whose disposition contains
"attachment" get an incrementing sequence number; a filename-decode failure
raises out of `save_attachment` into `process_email`'s handler (second
component `false`); a write failure (`attWriteOk`) is caught inside
`save_attachment` and only skips that file. -/
def walk_attachments (dec : String → List Nat → Except Unit String)
    (u8 : List Nat → String) (attWriteOk : String → Bool) (emailId : Nat) :
    List Part → Nat → List String → List String × Bool
  | [], _, existing => (existing, true)
  | p :: ps, count, existing =>
    if strContains p.dispo "attachment" then
      match attachment_filename dec u8 emailId (count + 1) p with
      | .error _ => (existing, false)
      | .ok fn =>
        let fp := attachment_dir emailId ++ "/" ++ fn
        let existing2 :=
          match resolveCollision existing fp with
          | some q => if attWriteOk q then existing ++ [q] else existing
          | none => existing
        walk_attachments dec u8 attWriteOk emailId ps (count + 1) existing2
    else walk_attachments dec u8 attWriteOk emailId ps count existing

/-- The declared filename of the part, when present, decodes without raising
under the given codec oracles. -/
def attachment_name_decodes (dec : String → List Nat → Except Unit String)
    (u8 : List Nat → String) (p : Part) : Prop :=
  ∀ frs, p.filename = some frs → ∃ r, decode_mime_words dec u8 frs = Except.ok r

/-- Python `f"{email_id:06d}"`. -/
def pad6 (n : Nat) : String :=
  let s := toString n
  (⟨List.replicate (6 - s.length) '0'⟩ : String) ++ s

/-- Observable outcome of `process_email`: the returned Bool, whether the
`.eml` archive was written before any failure, the archive name, and the saved
attachment paths. -/
structure PEResult where
  success : Bool
  emlWritten : Bool
  emlName : String
  attachments : List String
deriving DecidableEq

/-- `process_email` (run.py lines 194-231): the whole body runs inside one
try/except returning False.  Subject and From are decoded first (a decode
failure is an uncaught exception, so the message fails with nothing written),
then the archive file is written, then attachments are extracted; an exception
escaping the attachment walk fails the message after the archive write. -/
def process_email (dec : String → List Nat → Except Unit String)
    (u8 : List Nat → String) (parseOk emlWriteOk : Bool) (attWriteOk : String → Bool)
    (emailId : Nat) (msg : Msg) : PEResult :=
  if !parseOk then ⟨false, false, "", []⟩
  else
    match decode_mime_words dec u8 (msg.subject.getD [Frag.str "No Subject"]) with
    | .error _ => ⟨false, false, "", []⟩
    | .ok subj =>
      match decode_mime_words dec u8 (msg.sender.getD [Frag.str "Unknown Sender"]) with
      | .error _ => ⟨false, false, "", []⟩
      | .ok _ =>
        let safe := sanitize_filename subj
        let emlName := pad6 emailId ++ "_" ++ (⟨safe.data.take 50⟩ : String) ++ ".eml"
        if !emlWriteOk then ⟨false, false, emlName, []⟩
        else if msg.multipart then
          let w := walk_attachments dec u8 attWriteOk emailId msg.parts 0 []
          if w.2 then ⟨true, true, emlName, w.1⟩ else ⟨false, true, emlName, w.1⟩
        else ⟨true, true, emlName, []⟩

/- ------------------------------------------------------------------ -/
/- Concrete inputs used by counterexamples and witnesses.              -/
/- ------------------------------------------------------------------ -/

/-- A name whose extension alone exceeds the 200-unit bound. -/
def c3bad : String := "a." ++ (⟨List.replicate 201 'b'⟩ : String)

/-- All-success oracle. -/
def allOk : Nat → Bool := fun _ => true

/-- Two attachments declaring the same name for message 7. -/
def c6path : String := attachment_dir 7 ++ "/invoice.pdf"

/-- The resolved name of the second one. -/
def c6path1 : String := attachment_dir 7 ++ "/invoice_1.pdf"

/-- Fetch failing exactly for message id 3 (claim C2's example). -/
def c2fetch : Nat → Bool := fun id => id != 3

/-- An 11-message batch. -/
def c5ids : List Nat := [1, 2, 3, 4, 5, 6, 7, 8, 9, 10, 11]

/-- Fetch failing exactly for message id 10 (the 10th attempted message). -/
def c5fetch : Nat → Bool := fun id => id != 10

/-- A 25-message batch. -/
def c25ids : List Nat :=
  [1, 2, 3, 4, 5, 6, 7, 8, 9, 10, 11, 12, 13, 14, 15, 16, 17, 18, 19, 20,
   21, 22, 23, 24, 25]

/-- A codec oracle for which every declared charset fails to decode. -/
def decFail : String → List Nat → Except Unit String := fun _ _ => .error ()

/-- A codec oracle that decodes every declared charset. -/
def decOkEmpty : String → List Nat → Except Unit String := fun _ _ => .ok "x"

/-- The total utf-8-with-ignore fallback, at its simplest. -/
def u8empty : List Nat → String := fun _ => ""

/- ------------------------------------------------------------------ -/
/- Helper lemmas.                                                      -/
/- ------------------------------------------------------------------ -/

theorem str_data_append (a b : String) : (a ++ b).data = a.data ++ b.data := rfl

theorem str_length_append (a b : String) : (a ++ b).length = a.length + b.length := by
  show (a.data ++ b.data).length = a.data.length + b.data.length
  exact List.length_append a.data b.data

theorem mem_pySub (s : String) {c : Char} (h : c ∈ (pySub s).data) : c ∉ illegalChars := by
  have h1 : c ∈ s.data.map (fun c => if c ∈ illegalChars then '_' else c) := h
  obtain ⟨a, -, ha⟩ := List.mem_map.mp h1
  by_cases hA : a ∈ illegalChars
  · rw [if_pos hA] at ha
    rw [← ha]
    decide
  · rw [if_neg hA] at ha
    rw [← ha]
    exact hA

theorem mem_pyStrip (s : String) {c : Char} (h : c ∈ (pyStrip s).data) : c ∈ s.data := by
  have h1 : c ∈ ((s.data.dropWhile stripCh).reverse.dropWhile stripCh).reverse := h
  rw [List.mem_reverse] at h1
  have h2 := (List.dropWhile_sublist stripCh).subset h1
  rw [List.mem_reverse] at h2
  exact (List.dropWhile_sublist stripCh).subset h2

theorem pySplitext_subset (s : String) :
    (pySplitext s).1.data ⊆ s.data ∧ (pySplitext s).2.data ⊆ s.data := by
  unfold pySplitext
  dsimp only
  split
  · exact ⟨(List.take_sublist _ _).subset, (List.drop_sublist _ _).subset⟩
  · exact ⟨fun c h => h, fun c h => absurd h (List.not_mem_nil c)⟩

theorem pySplitext_append (s : String) : (pySplitext s).1 ++ (pySplitext s).2 = s := by
  obtain ⟨l⟩ := s
  unfold pySplitext
  dsimp only
  split
  · show (⟨l.take _ ++ l.drop _⟩ : String) = ⟨l⟩
    rw [List.take_append_drop]
  · show (⟨l ++ []⟩ : String) = ⟨l⟩
    rw [List.append_nil]

theorem pySliceTo_length_le (x : String) (j : Int) (h : 0 ≤ j) :
    (pySliceTo x j).length ≤ j.toNat := by
  unfold pySliceTo
  rw [if_pos h]
  exact List.length_take_le _ _

theorem sanitize_filename_of_ne (s : String) (hs : s ≠ "") :
    sanitize_filename s =
      (if 200 < (pyStrip (pySub s)).length then
        pySliceTo (pySplitext (pyStrip (pySub s))).1
            (200 - ((pySplitext (pyStrip (pySub s))).2.length : Int))
          ++ (pySplitext (pyStrip (pySub s))).2
      else pyStrip (pySub s)) := by
  unfold sanitize_filename
  rw [if_neg hs]

theorem pyStrip_head (s : String) {c : Char}
    (h : (pyStrip s).data.head? = some c) : stripCh c = false := by
  have h1 : (List.dropWhile stripCh ((s.data.dropWhile stripCh).reverse)).getLast?
      = some c := by
    have := h
    rw [show (pyStrip s).data
        = (List.dropWhile stripCh ((s.data.dropWhile stripCh).reverse)).reverse from rfl] at this
    rwa [List.head?_reverse] at this
  obtain ⟨w, hw⟩ :=
    @List.dropWhile_suffix Char ((s.data.dropWhile stripCh).reverse) stripCh
  have h2 : ((s.data.dropWhile stripCh).reverse).getLast? = some c := by
    rw [← hw, List.getLast?_append, h1]
    rfl
  rw [List.getLast?_reverse] at h2
  have h4 := List.head?_dropWhile_not stripCh s.data
  rw [h2] at h4
  exact h4

theorem pyStrip_last (s : String) {c : Char}
    (h : (pyStrip s).data.getLast? = some c) : stripCh c = false := by
  have h1 : (List.dropWhile stripCh ((s.data.dropWhile stripCh).reverse)).head?
      = some c := by
    have := h
    rw [show (pyStrip s).data
        = (List.dropWhile stripCh ((s.data.dropWhile stripCh).reverse)).reverse from rfl] at this
    rwa [List.getLast?_reverse] at this
  have h4 := List.head?_dropWhile_not stripCh ((s.data.dropWhile stripCh).reverse)
  rw [h1] at h4
  exact h4

theorem sanitize_filename_chars (s : String) :
    ∀ c ∈ (sanitize_filename s).data, c ∉ illegalChars := by
  intro c hc
  by_cases hs : s = ""
  · subst hs
    have hd : (sanitize_filename "").data
        = ['u', 'n', 'n', 'a', 'm', 'e', 'd', '_', 'f', 'i', 'l', 'e'] := rfl
    rw [hd] at hc
    fin_cases hc <;> decide
  · rw [sanitize_filename_of_ne s hs] at hc
    by_cases hlen : 200 < (pyStrip (pySub s)).length
    · rw [if_pos hlen] at hc
      rw [str_data_append, List.mem_append] at hc
      have hmem : c ∈ (pyStrip (pySub s)).data := by
        rcases hc with hc | hc
        · have h1 : c ∈ (pySplitext (pyStrip (pySub s))).1.data := by
            unfold pySliceTo at hc
            split at hc
            · exact (List.take_sublist _ _).subset hc
            · exact (List.take_sublist _ _).subset hc
          exact (pySplitext_subset (pyStrip (pySub s))).1 h1
        · exact (pySplitext_subset (pyStrip (pySub s))).2 hc
      exact mem_pySub s (mem_pyStrip (pySub s) hmem)
    · rw [if_neg hlen] at hc
      exact mem_pySub s (mem_pyStrip (pySub s) hc)

/-- C3 claim (amended): `sanitize_filename` is total and pure; its output never
contains any of the characters `<>:"/\|?*`; the empty input yields the fixed
fallback name; the output length is at most 200 units PROVIDED the trailing
extension of the cleaned name is itself at most 200 units (the source
truncates `name[:200-len(ext)] + ext`, which exceeds 200 when the extension
alone does); the trailing extension is preserved; and when no truncation is
needed the output is exactly the cleaned name, carrying no leading or trailing
dot or space. -/
theorem c3_sanitize_amended (s : String) :
    (∀ c ∈ (sanitize_filename s).data, c ∉ illegalChars)
    ∧ (s = "" → sanitize_filename s = "unnamed_file")
    ∧ ((pySplitext (pyStrip (pySub s))).2.length ≤ 200 →
        (sanitize_filename s).length ≤ 200)
    ∧ (s ≠ "" → ∃ p, sanitize_filename s = p ++ (pySplitext (pyStrip (pySub s))).2)
    ∧ (s ≠ "" → (pyStrip (pySub s)).length ≤ 200 →
        sanitize_filename s = pyStrip (pySub s)
        ∧ (∀ c, (sanitize_filename s).data.head? = some c → stripCh c = false)
        ∧ (∀ c, (sanitize_filename s).data.getLast? = some c → stripCh c = false)) := by
  refine ⟨sanitize_filename_chars s, ?_, ?_, ?_, ?_⟩
  · intro hs
    rw [hs]
    rfl
  · intro hext
    by_cases hs : s = ""
    · rw [hs]
      decide
    · rw [sanitize_filename_of_ne s hs]
      by_cases hlen : 200 < (pyStrip (pySub s)).length
      · rw [if_pos hlen]
        rw [str_length_append]
        have hj : (0 : Int) ≤ 200 - ((pySplitext (pyStrip (pySub s))).2.length : Int) := by
          omega
        have h1 := pySliceTo_length_le (pySplitext (pyStrip (pySub s))).1
          (200 - ((pySplitext (pyStrip (pySub s))).2.length : Int)) hj
        have h2 : (200 - ((pySplitext (pyStrip (pySub s))).2.length : Int)).toNat
            = 200 - (pySplitext (pyStrip (pySub s))).2.length := by
          omega
        omega
      · rw [if_neg hlen]
        omega
  · intro hs
    rw [sanitize_filename_of_ne s hs]
    by_cases hlen : 200 < (pyStrip (pySub s)).length
    · rw [if_pos hlen]
      exact ⟨_, rfl⟩
    · rw [if_neg hlen]
      exact ⟨(pySplitext (pyStrip (pySub s))).1, (pySplitext_append _).symm⟩
  · intro hs hlen
    have hid : sanitize_filename s = pyStrip (pySub s) := by
      rw [sanitize_filename_of_ne s hs, if_neg (by omega)]
    refine ⟨hid, ?_, ?_⟩
    · intro c hc
      rw [hid] at hc
      exact pyStrip_head (pySub s) hc
    · intro c hc
      rw [hid] at hc
      exact pyStrip_last (pySub s) hc

/-- Witness: `c3_sanitize_amended` applied at a concrete input, hypotheses
discharged by evaluation. -/
theorem c3_sanitize_amended_witness :
    (sanitize_filename "report.pdf").length ≤ 200
    ∧ sanitize_filename "report.pdf" = pyStrip (pySub "report.pdf") :=
  ⟨(c3_sanitize_amended "report.pdf").2.2.1 (by decide),
   ((c3_sanitize_amended "report.pdf").2.2.2.2 (by decide) (by decide)).1⟩

/-- C3 counterexample: on the input `"a."` followed by 201 `'b'`s (length 203),
the extension computed by `os.path.splitext` has 202 units, the Python slice
`name[:200-len(ext)]` gets a negative bound, and the output is the whole
202-unit extension: its length exceeds 200 and it even starts with a dot,
refuting both the unconditional 200-unit bound and unconditional trimming. -/
theorem c3_counterexample :
    (sanitize_filename c3bad).length = 202
    ∧ ¬ (sanitize_filename c3bad).length ≤ 200
    ∧ (sanitize_filename c3bad).data.head? = some '.' := by
  refine ⟨by decide, by decide, by decide⟩

/-- C4: the folder fallback of `download_all_emails` is equivalent to the
deterministic ordered strategy of the spec (verbatim, quoted, upper, lower,
`INBOX.`-prefixed unless already INBOX, provider-bracketed only for a gmail
server), because the extra duplicate entries the code retries are exactly the
already-failed verbatim name; requesting `Sent` when only `INBOX.Sent` is
selectable yields `INBOX.Sent`, and a name no variant of which is selectable
yields `none` (the `return False`). -/
theorem c4_folder_fallback :
    (∀ (selectable : String → Bool) (server folder : String),
        select_folder selectable server folder
          = select_folder_spec selectable server folder)
    ∧ select_folder (fun s => s == "INBOX.Sent") "mail.example.com" "Sent"
        = some "INBOX.Sent"
    ∧ select_folder (fun s => s == "INBOX") "mail.example.com" "Nonexistent" = none := by
  refine ⟨?_, by decide, by decide⟩
  intro sel server folder
  unfold select_folder select_folder_spec folderVariations
  by_cases hsel : sel folder = true
  · rw [if_pos hsel, if_pos hsel]
  · rw [if_neg hsel, if_neg hsel]
    rw [show ([folder,
        "\"" ++ folder ++ "\"",
        pyUpper folder,
        pyLower folder,
        if folder = "INBOX" then folder else "INBOX." ++ folder,
        if strContains (pyLower server) "gmail" then "[Gmail]/" ++ folder else folder]
          : List String)
        = [folder] ++ ["\"" ++ folder ++ "\"", pyUpper folder, pyLower folder]
          ++ [if folder = "INBOX" then folder else "INBOX." ++ folder]
          ++ [if strContains (pyLower server) "gmail" then "[Gmail]/" ++ folder
              else folder] from rfl]
    have hskip : ∀ l : List String, ([folder] ++ l).find? sel = l.find? sel := by
      intro l
      rw [List.cons_append, List.nil_append, List.find?_cons_of_neg _ hsel]
    rw [List.find?_append, List.find?_append, hskip, List.find?_append, List.find?_append]
    have h5 : ([if folder = "INBOX" then folder else "INBOX." ++ folder] : List String).find? sel
        = (if folder = "INBOX" then ([] : List String) else ["INBOX." ++ folder]).find? sel := by
      by_cases hf : folder = "INBOX"
      · rw [if_pos hf, if_pos hf, List.find?_cons_of_neg _ hsel]
      · rw [if_neg hf, if_neg hf]
    have h6 : ([if strContains (pyLower server) "gmail" then "[Gmail]/" ++ folder
          else folder] : List String).find? sel
        = (if strContains (pyLower server) "gmail" then ["[Gmail]/" ++ folder]
            else ([] : List String)).find? sel := by
      by_cases hg : strContains (pyLower server) "gmail" = true
      · rw [if_pos hg, if_pos hg]
      · rw [Bool.not_eq_true] at hg
        rw [hg]
        show ([folder] : List String).find? sel = _
        rw [List.find?_cons_of_neg _ hsel]
        rfl
    rw [h5, h6]

/-- Shared invariant for C6: every path emitted by `save_att_names` is fresh
relative to the directory contents it was resolved against, and the emitted
paths are pairwise distinct. -/
theorem resolveCollisionGo_not_mem (ex : List String) (name ext : String) :
    ∀ fuel k p, resolveCollisionGo ex name ext k fuel = some p → p ∉ ex := by
  intro fuel
  induction fuel with
  | zero =>
    intro k p h
    simp [resolveCollisionGo] at h
  | succ f ih =>
    intro k p h
    rw [resolveCollisionGo] at h
    by_cases hc : name ++ "_" ++ toString k ++ ext ∈ ex
    · rw [if_pos hc] at h
      exact ih (k + 1) p h
    · rw [if_neg hc] at h
      injection h with h
      rw [← h]
      exact hc

theorem resolveCollision_not_mem (ex : List String) (fp p : String)
    (h : resolveCollision ex fp = some p) : p ∉ ex := by
  unfold resolveCollision at h
  by_cases hm : fp ∈ ex
  · rw [if_pos hm] at h
    exact resolveCollisionGo_not_mem ex _ _ _ _ p h
  · rw [if_neg hm] at h
    injection h with h
    rw [← h]
    exact hm

theorem save_att_names_fresh :
    ∀ (fns ex : List String),
      (∀ q ∈ (save_att_names ex fns).2, q ∉ ex) ∧ (save_att_names ex fns).2.Nodup := by
  intro fns
  induction fns with
  | nil =>
    intro ex
    simp [save_att_names]
  | cons fp rest ih =>
    intro ex
    rcases hrc : resolveCollision ex fp with _ | p
    · rw [show save_att_names ex (fp :: rest)
          = save_att_names ex rest by rw [save_att_names, hrc]]
      exact ih ex
    · have hp : p ∉ ex := resolveCollision_not_mem ex fp p hrc
      have hstep : (save_att_names ex (fp :: rest)).2
          = p :: (save_att_names (ex ++ [p]) rest).2 := by
        rw [save_att_names, hrc]
      have ih2 := ih (ex ++ [p])
      constructor
      · intro q hq
        rw [hstep] at hq
        rcases List.mem_cons.mp hq with hq | hq
        · rw [hq]
          exact hp
        · intro hqex
          exact ih2.1 q hq (List.mem_append_left [p] hqex)
      · rw [hstep]
        refine List.nodup_cons.mpr ⟨?_, ih2.2⟩
        intro hpmem
        exact ih2.1 p hpmem (List.mem_append_right ex (List.mem_singleton.mpr rfl))

/-- C6: within one message's attachment directory no two saved attachments
share a final filename — the collision loop appends `_1`, `_2`, ... before the
extension until an unused path is found — and concretely two attachments both
named `invoice.pdf` for message 7 are saved as `invoice.pdf` and
`invoice_1.pdf`. -/
theorem c6_attachment_collisions :
    (∀ (existing fns : List String), (save_att_names existing fns).2.Nodup)
    ∧ (save_att_names [] [c6path, c6path]).2 = [c6path, c6path1] := by
  refine ⟨fun ex fns => (save_att_names_fresh fns ex).2, by decide⟩

/- ------------------------------------------------------------------ -/
/- Orchestrator lemmas.                                                -/
/- ------------------------------------------------------------------ -/

theorem stepSave_core (so : Nat → Bool) (n t i id : Nat) (st : LoopState) :
    (stepSave so n t i id st).processedIds = st.processedIds
    ∧ (stepSave so n t i id st).archives = st.archives
    ∧ (stepSave so n t i id st).successful = st.successful
    ∧ (stepSave so n t i id st).processedCount = st.processedCount := by
  unfold stepSave
  split
  · exact ⟨rfl, rfl, rfl, rfl⟩
  · exact ⟨rfl, rfl, rfl, rfl⟩

theorem stepSave_saves (so : Nat → Bool) (n t i id : Nat) (st : LoopState) :
    (stepSave so n t i id st).saves
      = st.saves ++ (if (i % 10 == 0 || i == n) = true
          then [(i, mkProgress id t st.processedIds, so i)] else []) := by
  by_cases h : (i % 10 == 0 || i == n) = true
  · simp only [stepSave, if_pos h]
  · simp only [stepSave, if_neg h, List.append_nil]

theorem stepProcess_saves (ps : Nat → Bool) (id : Nat) (st : LoopState) :
    (stepProcess ps id st).saves = st.saves := by
  unfold stepProcess
  split
  · rfl
  · rfl

theorem stepProcess_processedIds (ps : Nat → Bool) (id : Nat) (st : LoopState) :
    (stepProcess ps id st).processedIds
      = st.processedIds ++ (if ps id = true then [id] else []) := by
  by_cases h : ps id = true
  · simp only [stepProcess, if_pos h]
  · simp only [stepProcess, if_neg h, List.append_nil]

theorem step_fresh (ps so : Nat → Bool) (n total i id : Nat) (st : LoopState)
    (rest : List Nat) (hfresh : ∀ jd ∈ id :: rest, jd ∉ st.processedIds)
    (hidr : id ∉ rest) :
    ∀ jd ∈ rest, jd ∉ (stepSave so n total i id (stepProcess ps id st)).processedIds := by
  intro jd hjd
  rw [(stepSave_core so n total i id _).1, stepProcess_processedIds]
  intro hmem
  rcases List.mem_append.mp hmem with hmem | hmem
  · exact hfresh jd (List.mem_cons_of_mem id hjd) hmem
  · split at hmem
    · rw [List.mem_singleton] at hmem
      exact hidr (hmem ▸ hjd)
    · exact (List.not_mem_nil jd) hmem

theorem runLoop_state (fp ps so : Nat → Bool) (n total : Nat) :
    ∀ (rest : List Nat) (i : Nat) (st : LoopState), rest.Nodup →
      (∀ id ∈ rest, id ∉ st.processedIds) →
      (runLoop fp ps so n total rest i st).processedIds
          = st.processedIds ++ rest.filter (fun id => fp id && ps id)
      ∧ (runLoop fp ps so n total rest i st).archives
          = st.archives ++ rest.filter (fun id => fp id && ps id)
      ∧ (runLoop fp ps so n total rest i st).successful
          = st.successful + (rest.filter (fun id => fp id && ps id)).length
      ∧ (runLoop fp ps so n total rest i st).processedCount
          = st.processedCount + (rest.filter (fun id => fp id && ps id)).length := by
  intro rest
  induction rest with
  | nil =>
    intro i st _ _
    simp [runLoop]
  | cons id rest ih =>
    intro i st hnd hfresh
    have hid : id ∉ st.processedIds := hfresh id (List.mem_cons_self id rest)
    have hidr : id ∉ rest := (List.nodup_cons.mp hnd).1
    have hnd2 : rest.Nodup := (List.nodup_cons.mp hnd).2
    rw [runLoop, if_neg hid]
    by_cases hfp : fp id = true
    · rw [if_pos hfp]
      have hcore := stepSave_core so n total i id (stepProcess ps id st)
      obtain ⟨h1, h2, h3, h4⟩ := ih (i + 1) (stepSave so n total i id (stepProcess ps id st))
        hnd2 (step_fresh ps so n total i id st rest hfresh hidr)
      rw [h1, h2, h3, h4, hcore.1, hcore.2.1, hcore.2.2.1, hcore.2.2.2]
      by_cases hps : ps id = true
      · refine ⟨?_, ?_, ?_, ?_⟩ <;>
          simp [stepProcess, hps, List.filter_cons, hfp, List.append_assoc] <;> omega
      · refine ⟨?_, ?_, ?_, ?_⟩ <;>
          simp [stepProcess, hps, List.filter_cons, hfp]
    · rw [if_neg hfp]
      obtain ⟨h1, h2, h3, h4⟩ := ih (i + 1) st hnd2
        (fun jd hjd => hfresh jd (List.mem_cons_of_mem id hjd))
      rw [h1, h2, h3, h4]
      have hfp2 : fp id = false := by simpa using hfp
      have hfl : (id :: rest).filter (fun jd => fp jd && ps jd)
          = rest.filter (fun jd => fp jd && ps jd) := by
        simp [List.filter_cons, hfp2]
      rw [hfl]
      exact ⟨rfl, rfl, rfl, rfl⟩

theorem runLoop_savePos (fp ps so : Nat → Bool) (n total : Nat) :
    ∀ (rest : List Nat) (i : Nat) (st : LoopState), rest.Nodup →
      (∀ id ∈ rest, id ∉ st.processedIds) →
      (runLoop fp ps so n total rest i st).saves.map (fun x => x.1)
        = st.saves.map (fun x => x.1) ++ savePosSpec fp n i rest := by
  intro rest
  induction rest with
  | nil =>
    intro i st _ _
    simp [runLoop, savePosSpec]
  | cons id rest ih =>
    intro i st hnd hfresh
    have hid : id ∉ st.processedIds := hfresh id (List.mem_cons_self id rest)
    have hidr : id ∉ rest := (List.nodup_cons.mp hnd).1
    have hnd2 : rest.Nodup := (List.nodup_cons.mp hnd).2
    rw [runLoop, if_neg hid]
    by_cases hfp : fp id = true
    · rw [if_pos hfp]
      rw [ih (i + 1) (stepSave so n total i id (stepProcess ps id st))
        hnd2 (step_fresh ps so n total i id st rest hfresh hidr)]
      rw [stepSave_saves, stepProcess_saves]
      rw [savePosSpec]
      by_cases hc : (i % 10 == 0 || i == n) = true
      · simp [hc, hfp, List.append_assoc]
      · have hc2 : (i % 10 == 0 || i == n) = false := by simpa using hc
        simp [hc2, hfp]
    · rw [if_neg hfp]
      rw [ih (i + 1) st hnd2 (fun jd hjd => hfresh jd (List.mem_cons_of_mem id hjd))]
      rw [savePosSpec]
      have hfp2 : fp id = false := by simpa using hfp
      simp [hfp2]

theorem runLoop_progress_inv (fp ps so : Nat → Bool) (n total : Nat) :
    ∀ (rest : List Nat) (i : Nat) (st : LoopState), st.processedIds.Nodup →
      (∀ x ∈ st.saves, x.2.1.processedCount = x.2.1.processedIds.length
          ∧ x.2.1.processedIds.Nodup) →
      (runLoop fp ps so n total rest i st).processedIds.Nodup
      ∧ (∀ x ∈ (runLoop fp ps so n total rest i st).saves,
          x.2.1.processedCount = x.2.1.processedIds.length ∧ x.2.1.processedIds.Nodup) := by
  intro rest
  induction rest with
  | nil =>
    intro i st h1 h2
    exact ⟨h1, h2⟩
  | cons id rest ih =>
    intro i st h1 h2
    rw [runLoop]
    by_cases hid : id ∈ st.processedIds
    · rw [if_pos hid]
      exact ih (i + 1) st h1 h2
    · rw [if_neg hid]
      by_cases hfp : fp id = true
      · rw [if_pos hfp]
        have hpnd : (stepProcess ps id st).processedIds.Nodup := by
          rw [stepProcess_processedIds]
          split
          · rw [List.nodup_middle]
            exact List.nodup_cons.mpr ⟨by simpa using hid, by simpa using h1⟩
          · simpa using h1
        apply ih (i + 1)
        · rw [(stepSave_core so n total i id _).1]
          exact hpnd
        · intro x hx
          rw [stepSave_saves] at hx
          rcases List.mem_append.mp hx with hx | hx
          · rw [stepProcess_saves] at hx
            exact h2 x hx
          · split at hx
            · rw [List.mem_singleton] at hx
              rw [hx]
              exact ⟨rfl, hpnd⟩
            · exact absurd hx (List.not_mem_nil x)
      · rw [if_neg hfp]
        exact ih (i + 1) st h1 h2

theorem runLoop_saveOk_indep (fp ps so₁ so₂ : Nat → Bool) (n total : Nat) :
    ∀ (rest : List Nat) (i : Nat) (st₁ st₂ : LoopState),
      st₁.processedIds = st₂.processedIds → st₁.successful = st₂.successful →
      st₁.processedCount = st₂.processedCount → st₁.archives = st₂.archives →
      (runLoop fp ps so₁ n total rest i st₁).processedIds
          = (runLoop fp ps so₂ n total rest i st₂).processedIds
      ∧ (runLoop fp ps so₁ n total rest i st₁).successful
          = (runLoop fp ps so₂ n total rest i st₂).successful
      ∧ (runLoop fp ps so₁ n total rest i st₁).processedCount
          = (runLoop fp ps so₂ n total rest i st₂).processedCount
      ∧ (runLoop fp ps so₁ n total rest i st₁).archives
          = (runLoop fp ps so₂ n total rest i st₂).archives := by
  intro rest
  induction rest with
  | nil =>
    intro i st₁ st₂ e1 e2 e3 e4
    exact ⟨e1, e2, e3, e4⟩
  | cons id rest ih =>
    intro i st₁ st₂ e1 e2 e3 e4
    rw [runLoop, runLoop]
    by_cases hid : id ∈ st₁.processedIds
    · have hid₂ : id ∈ st₂.processedIds := by rw [← e1]; exact hid
      rw [if_pos hid, if_pos hid₂]
      exact ih (i + 1) st₁ st₂ e1 e2 e3 e4
    · have hid₂ : id ∉ st₂.processedIds := by rw [← e1]; exact hid
      rw [if_neg hid, if_neg hid₂]
      by_cases hfp : fp id = true
      · rw [if_pos hfp, if_pos hfp]
        apply ih (i + 1)
        · rw [(stepSave_core so₁ n total i id _).1, (stepSave_core so₂ n total i id _).1,
            stepProcess_processedIds, stepProcess_processedIds, e1]
        · rw [(stepSave_core so₁ n total i id _).2.2.1, (stepSave_core so₂ n total i id _).2.2.1]
          unfold stepProcess
          by_cases hps : ps id = true
          · rw [if_pos hps, if_pos hps]
            exact congrArg (· + 1) e2
          · rw [if_neg hps, if_neg hps]
            exact e2
        · rw [(stepSave_core so₁ n total i id _).2.2.2, (stepSave_core so₂ n total i id _).2.2.2]
          unfold stepProcess
          by_cases hps : ps id = true
          · rw [if_pos hps, if_pos hps]
            exact congrArg (· + 1) e3
          · rw [if_neg hps, if_neg hps]
            exact e3
        · rw [(stepSave_core so₁ n total i id _).2.1, (stepSave_core so₂ n total i id _).2.1]
          unfold stepProcess
          by_cases hps : ps id = true
          · rw [if_pos hps, if_pos hps, e4]
          · rw [if_neg hps, if_neg hps]
            exact e4
      · rw [if_neg hfp, if_neg hfp]
        exact ih (i + 1) st₁ st₂ e1 e2 e3 e4

theorem filter_not_mem_take (ids : List Nat) (k : Nat) (hnd : ids.Nodup) :
    ids.filter (fun id => decide (id ∉ ids.take k)) = ids.drop k := by
  have hdisj : List.Disjoint (ids.take k) (ids.drop k) :=
    List.disjoint_take_drop hnd (Nat.le_refl k)
  have hsplit := congrArg (List.filter (fun id => decide (id ∉ ids.take k)))
    (List.take_append_drop k ids).symm
  rw [hsplit, List.filter_append]
  have h1 : (ids.take k).filter (fun id => decide (id ∉ ids.take k)) = [] := by
    rw [List.filter_eq_nil_iff]
    intro a ha
    simp only [decide_eq_true_eq]
    exact fun hcon => hcon ha
  have h2 : (ids.drop k).filter (fun id => decide (id ∉ ids.take k)) = ids.drop k := by
    rw [List.filter_eq_self]
    intro a ha
    simp only [decide_eq_true_eq]
    exact fun hmem => hdisj hmem ha
  rw [h1, h2, List.nil_append]

theorem downloadRemaining_false (ids0 ids : List Nat) :
    downloadRemaining false ids0 ids = ids := by
  unfold downloadRemaining
  rw [Bool.false_and]
  rfl

theorem downloadRemaining_take (ids : List Nat) (k : Nat) (hnd : ids.Nodup)
    (hids : ids ≠ []) :
    downloadRemaining true (ids.take k) ids = ids.drop k := by
  unfold downloadRemaining
  by_cases h0 : (ids.take k).isEmpty = true
  · have htk : ids.take k = [] := List.isEmpty_iff.mp h0
    rw [h0]
    have hk : k = 0 := by
      rcases List.take_eq_nil_iff.mp htk with h | h
      · exact h
      · exact absurd h hids
    rw [hk]
    rfl
  · have h0f : (ids.take k).isEmpty = false := by
      rcases Bool.eq_false_or_eq_true (ids.take k).isEmpty with h | h
      · exact absurd h h0
      · exact h
    rw [h0f]
    rw [if_pos (by decide)]
    exact filter_not_mem_take ids k hnd

theorem download_shape (fp ps so : Nat → Bool) (rm : Bool) (ids0 ids : List Nat)
    (h : ids ≠ []) :
    download_all_emails fp ps so rm ids0 ids
      = ⟨true,
          runLoop fp ps so (downloadRemaining rm ids0 ids).length ids.length
            (downloadRemaining rm ids0 ids) 1
            ⟨ids0, 0, if rm then ids0.length else 0, [], []⟩,
          ids.length, downloadRemaining rm ids0 ids,
          if (downloadRemaining rm ids0 ids).isEmpty then none
          else some (mkProgress ((downloadRemaining rm ids0 ids).getLastD 0) ids.length
              (runLoop fp ps so (downloadRemaining rm ids0 ids).length ids.length
                (downloadRemaining rm ids0 ids) 1
                ⟨ids0, 0, if rm then ids0.length else 0, [], []⟩).processedIds,
            so 0)⟩ := by
  unfold download_all_emails
  rw [if_neg (fun hc => h (List.length_eq_zero.mp hc))]

/-- C1: idempotent resume.  For a duplicate-free enumeration snapshot on which
every fetch and persist succeeds, a run resumed from the completed set of an
interruption after `k` messages never re-writes an archive for an id already in
that completed set (it archives exactly the remaining ids), and its final
`completed_ids` equals the snapshot, the same as an uninterrupted single run. -/
theorem c1_idempotent_resume (fetchOk processOk saveOk : Nat → Bool)
    (ids : List Nat) (k : Nat) (hnd : ids.Nodup)
    (hok : ∀ id ∈ ids, fetchOk id = true ∧ processOk id = true) :
    (∀ id ∈ ids.take k, id ∉ (resumed_run fetchOk processOk saveOk k ids).st.archives)
    ∧ (resumed_run fetchOk processOk saveOk k ids).st.archives = ids.drop k
    ∧ (resumed_run fetchOk processOk saveOk k ids).st.processedIds = ids
    ∧ (single_run fetchOk processOk saveOk ids).st.processedIds = ids := by
  have hfilter : ∀ l : List Nat, (∀ id ∈ l, id ∈ ids) →
      l.filter (fun id => fetchOk id && processOk id) = l := by
    intro l hl
    rw [List.filter_eq_self]
    intro a ha
    rw [Bool.and_eq_true]
    exact hok a (hl a ha)
  by_cases hids : ids = []
  · subst hids
    refine ⟨?_, ?_, ?_, ?_⟩ <;> simp [resumed_run, single_run, download_all_emails]
  · have hdisj : List.Disjoint (ids.take k) (ids.drop k) :=
      List.disjoint_take_drop hnd (Nat.le_refl k)
    have hres : (resumed_run fetchOk processOk saveOk k ids).st
        = runLoop fetchOk processOk saveOk (ids.drop k).length ids.length (ids.drop k) 1
            ⟨ids.take k, 0, (ids.take k).length, [], []⟩ := by
      unfold resumed_run
      rw [download_shape fetchOk processOk saveOk true (ids.take k) ids hids,
        downloadRemaining_take ids k hnd hids]
      rfl
    have hnd2 : (ids.drop k).Nodup := (List.drop_sublist k ids).nodup hnd
    have hfr : ∀ id ∈ ids.drop k,
        id ∉ (⟨ids.take k, 0, (ids.take k).length, [], []⟩ : LoopState).processedIds :=
      fun id hid hmem => hdisj hmem hid
    obtain ⟨hpid, harc, -, -⟩ := runLoop_state fetchOk processOk saveOk
      (ids.drop k).length ids.length (ids.drop k) 1
      ⟨ids.take k, 0, (ids.take k).length, [], []⟩ hnd2 hfr
    rw [hfilter (ids.drop k) (fun id hid => List.drop_subset k ids hid)] at hpid harc
    have harc2 : (runLoop fetchOk processOk saveOk
        (ids.drop k).length ids.length (ids.drop k) 1
        ⟨ids.take k, 0, (ids.take k).length, [], []⟩).archives = ids.drop k :=
      harc.trans rfl
    have hpid2 : (runLoop fetchOk processOk saveOk
        (ids.drop k).length ids.length (ids.drop k) 1
        ⟨ids.take k, 0, (ids.take k).length, [], []⟩).processedIds = ids := by
      rw [hpid]
      show ids.take k ++ ids.drop k = ids
      exact List.take_append_drop k ids
    have hsingle : (single_run fetchOk processOk saveOk ids).st.processedIds = ids := by
      have hres2 : (single_run fetchOk processOk saveOk ids).st
          = runLoop fetchOk processOk saveOk ids.length ids.length ids 1
              ⟨[], 0, 0, [], []⟩ := by
        unfold single_run
        rw [download_shape fetchOk processOk saveOk false [] ids hids,
          downloadRemaining_false]
        rfl
      obtain ⟨hpidS, -, -, -⟩ := runLoop_state fetchOk processOk saveOk
        ids.length ids.length ids 1 ⟨[], 0, 0, [], []⟩ hnd
        (fun id _ hmem => absurd hmem (List.not_mem_nil id))
      rw [hres2, hpidS, hfilter ids (fun id h => h)]
      rfl
    refine ⟨?_, ?_, ?_, hsingle⟩
    · intro id hidk
      rw [hres, harc2]
      exact fun hmem => hdisj hidk hmem
    · rw [hres]
      exact harc2
    · rw [hres]
      exact hpid2

/-- Witness: `c1_idempotent_resume` at the snapshot [1,2,3] interrupted after
one message. -/
theorem c1_idempotent_resume_witness :
    (resumed_run allOk allOk allOk 1 [1, 2, 3]).st.archives = [1, 2, 3].drop 1
    ∧ (resumed_run allOk allOk allOk 1 [1, 2, 3]).st.processedIds = [1, 2, 3]
    ∧ (single_run allOk allOk allOk [1, 2, 3]).st.processedIds = [1, 2, 3] :=
  ⟨(c1_idempotent_resume allOk allOk allOk [1, 2, 3] 1 (by decide) (by decide)).2.1,
   (c1_idempotent_resume allOk allOk allOk [1, 2, 3] 1 (by decide) (by decide)).2.2.1,
   (c1_idempotent_resume allOk allOk allOk [1, 2, 3] 1 (by decide) (by decide)).2.2.2⟩

/-- C2: partial-failure isolation.  When exactly one id `x` fails (fetch or
processing), the run still returns True, every other id is processed and
archived, `x` is absent from `completed_ids`, and the summary counts are the
number of surviving ids out of the snapshot total. -/
theorem c2_partial_failure_isolation (fetchOk processOk saveOk : Nat → Bool)
    (ids : List Nat) (x : Nat) (hnd : ids.Nodup)
    (hok : ∀ id ∈ ids, id ≠ x → fetchOk id = true ∧ processOk id = true)
    (hx : fetchOk x = false ∨ processOk x = false) :
    (single_run fetchOk processOk saveOk ids).ok = true
    ∧ (single_run fetchOk processOk saveOk ids).st.processedIds
        = ids.filter (fun id => decide (id ≠ x))
    ∧ x ∉ (single_run fetchOk processOk saveOk ids).st.processedIds
    ∧ (single_run fetchOk processOk saveOk ids).st.archives
        = ids.filter (fun id => decide (id ≠ x))
    ∧ (single_run fetchOk processOk saveOk ids).st.successful
        = (ids.filter (fun id => decide (id ≠ x))).length
    ∧ (single_run fetchOk processOk saveOk ids).st.processedCount
        = (ids.filter (fun id => decide (id ≠ x))).length
    ∧ (single_run fetchOk processOk saveOk ids).total = ids.length := by
  have hfc : ids.filter (fun id => fetchOk id && processOk id)
      = ids.filter (fun id => decide (id ≠ x)) := by
    apply List.filter_congr
    intro a ha
    by_cases hax : a = x
    · subst hax
      rcases hx with h | h <;> simp [h]
    · have hgood := hok a ha hax
      simp [hgood.1, hgood.2, hax]
  by_cases hids : ids = []
  · subst hids
    refine ⟨rfl, ?_, ?_, ?_, ?_, ?_, rfl⟩ <;> simp [single_run, download_all_emails]
  · have hok2 : (single_run fetchOk processOk saveOk ids).ok = true := by
      unfold single_run
      rw [download_shape fetchOk processOk saveOk false [] ids hids]
    have htot : (single_run fetchOk processOk saveOk ids).total = ids.length := by
      unfold single_run
      rw [download_shape fetchOk processOk saveOk false [] ids hids]
    have hres2 : (single_run fetchOk processOk saveOk ids).st
        = runLoop fetchOk processOk saveOk ids.length ids.length ids 1
            ⟨[], 0, 0, [], []⟩ := by
      unfold single_run
      rw [download_shape fetchOk processOk saveOk false [] ids hids,
        downloadRemaining_false]
      rfl
    obtain ⟨h1, h2, h3, h4⟩ := runLoop_state fetchOk processOk saveOk
      ids.length ids.length ids 1 ⟨[], 0, 0, [], []⟩ hnd
      (fun id _ hmem => absurd hmem (List.not_mem_nil id))
    refine ⟨hok2, ?_, ?_, ?_, ?_, ?_, htot⟩
    · rw [hres2, h1, hfc]
      rfl
    · rw [hres2, h1, hfc]
      intro hmem
      have hmem2 : x ∈ ids.filter (fun id => decide (id ≠ x)) := hmem
      rw [List.mem_filter] at hmem2
      simp at hmem2
    · rw [hres2, h2, hfc]
      rfl
    · rw [hres2, h3, hfc]
      simp
    · rw [hres2, h4, hfc]
      simp

/-- Witness: `c2_partial_failure_isolation` at the claim's own example, a batch
of five ids with the fetch of id 3 failing: archives {1,2,4,5}, id 3 absent,
4 of 5 reported. -/
theorem c2_partial_failure_isolation_witness :
    ((single_run c2fetch allOk allOk [1, 2, 3, 4, 5]).ok = true
      ∧ (single_run c2fetch allOk allOk [1, 2, 3, 4, 5]).st.processedIds
          = [1, 2, 3, 4, 5].filter (fun id => decide (id ≠ 3))
      ∧ 3 ∉ (single_run c2fetch allOk allOk [1, 2, 3, 4, 5]).st.processedIds
      ∧ (single_run c2fetch allOk allOk [1, 2, 3, 4, 5]).st.archives
          = [1, 2, 3, 4, 5].filter (fun id => decide (id ≠ 3))
      ∧ (single_run c2fetch allOk allOk [1, 2, 3, 4, 5]).st.successful
          = ([1, 2, 3, 4, 5].filter (fun id => decide (id ≠ 3))).length
      ∧ (single_run c2fetch allOk allOk [1, 2, 3, 4, 5]).st.processedCount
          = ([1, 2, 3, 4, 5].filter (fun id => decide (id ≠ 3))).length
      ∧ (single_run c2fetch allOk allOk [1, 2, 3, 4, 5]).total = [1, 2, 3, 4, 5].length)
    ∧ [1, 2, 3, 4, 5].filter (fun id => decide (id ≠ 3)) = [1, 2, 4, 5]
    ∧ ([1, 2, 3, 4, 5].filter (fun id => decide (id ≠ 3))).length = 4 :=
  ⟨c2_partial_failure_isolation c2fetch allOk allOk [1, 2, 3, 4, 5] 3
      (by decide) (by decide) (Or.inl (by decide)),
   by decide, by decide⟩

/-- C5 counterexample: in an 11-message batch whose 10th message's fetch fails,
the `continue` on fetch failure skips the cadence test, so NO checkpoint is
written after the 10th attempted message (the only saves are the in-loop one at
the last index and the final one), refuting "save is called exactly after every
10th attempted message". -/
theorem c5_counterexample :
    savePositions (single_run c5fetch allOk allOk c5ids) = [11]
    ∧ 10 ∉ savePositions (single_run c5fetch allOk allOk c5ids)
    ∧ 10 % 10 = 0 ∧ 10 ≤ c5ids.length := by
  exact ⟨by decide, by decide, by decide, by decide⟩

/-- C5 (amended): during the batch, `save_progress` runs after the i-th message
exactly when that message's fetch succeeded (a fetch failure or an
already-processed skip jumps past the cadence test) and i is a multiple of 10
or the last index — processing failure does not suppress the checkpoint — and
one further unconditional save follows the batch; with no failures, 25
messages give in-loop checkpoints exactly after messages 10, 20 and 25, plus
the final save. -/
theorem c5_checkpoint_cadence_amended :
    (∀ (fetchOk processOk saveOk : Nat → Bool) (ids : List Nat), ids.Nodup →
        savePositions (single_run fetchOk processOk saveOk ids)
          = savePosSpec fetchOk ids.length 1 ids)
    ∧ savePositions (single_run allOk allOk allOk c25ids) = [10, 20, 25]
    ∧ (single_run allOk allOk allOk c25ids).finalSave.isSome = true := by
  refine ⟨?_, by decide, by decide⟩
  intro fp ps so ids hnd
  by_cases hids : ids = []
  · subst hids
    rfl
  · unfold savePositions single_run
    rw [download_shape fp ps so false [] ids hids, downloadRemaining_false]
    show (runLoop fp ps so ids.length ids.length ids 1
        ⟨[], 0, 0, [], []⟩).saves.map (fun x => x.1) = savePosSpec fp ids.length 1 ids
    rw [runLoop_savePos fp ps so ids.length ids.length ids 1 ⟨[], 0, 0, [], []⟩ hnd
      (fun id _ hmem => absurd hmem (List.not_mem_nil id))]
    rfl

/-- Witness: `c5_checkpoint_cadence_amended` at a concrete two-message batch. -/
theorem c5_checkpoint_cadence_amended_witness :
    savePositions (single_run allOk allOk allOk [4, 7])
      = savePosSpec allOk ([4, 7].length) 1 [4, 7] :=
  c5_checkpoint_cadence_amended.1 allOk allOk allOk [4, 7] (by decide)

/-- C9: ledger robustness.  An absent progress file loads as none; a file whose
parse fails loads as none and `check_resume_option` treats it exactly like an
absent file (fresh start, never fatal); `save_progress` converts a write
failure into a warning; and the outcome of a run (completed ids, success
count, returned Bool) is identical whatever checkpoint writes fail. -/
theorem c9_ledger_robustness :
    (∀ (parse : String → Option ProgressData) (ans : Bool),
        check_resume_option (load_progress none parse) ans = (false, []))
    ∧ (∀ (s : String) (parse : String → Option ProgressData) (ans : Bool),
        parse s = none →
          check_resume_option (load_progress (some s) parse) ans
            = check_resume_option (load_progress none parse) ans)
    ∧ (∀ w : Except Unit Unit, save_progress_outcome w = SaveOutcome.written
        ∨ save_progress_outcome w = SaveOutcome.warned)
    ∧ (∀ (fetchOk processOk so₁ so₂ : Nat → Bool) (rm : Bool) (ids0 ids : List Nat),
        (download_all_emails fetchOk processOk so₁ rm ids0 ids).st.processedIds
            = (download_all_emails fetchOk processOk so₂ rm ids0 ids).st.processedIds
          ∧ (download_all_emails fetchOk processOk so₁ rm ids0 ids).st.successful
            = (download_all_emails fetchOk processOk so₂ rm ids0 ids).st.successful
          ∧ (download_all_emails fetchOk processOk so₁ rm ids0 ids).ok
            = (download_all_emails fetchOk processOk so₂ rm ids0 ids).ok) := by
  refine ⟨?_, ?_, ?_, ?_⟩
  · intro parse ans
    rfl
  · intro s parse ans hp
    show check_resume_option (parse s) ans
        = check_resume_option (none : Option ProgressData) ans
    rw [hp]
  · intro w
    cases w with
    | ok a => exact Or.inl rfl
    | error e => exact Or.inr rfl
  · intro fp ps so₁ so₂ rm ids0 ids
    by_cases hids : ids = []
    · subst hids
      exact ⟨rfl, rfl, rfl⟩
    · rw [download_shape fp ps so₁ rm ids0 ids hids,
        download_shape fp ps so₂ rm ids0 ids hids]
      obtain ⟨e1, e2, e3, e4⟩ := runLoop_saveOk_indep fp ps so₁ so₂
        (downloadRemaining rm ids0 ids).length ids.length (downloadRemaining rm ids0 ids) 1
        ⟨ids0, 0, if rm then ids0.length else 0, [], []⟩
        ⟨ids0, 0, if rm then ids0.length else 0, [], []⟩ rfl rfl rfl rfl
      exact ⟨e1, e2, rfl⟩

/-- Witness: `c9_ledger_robustness` on a corrupt (unparseable) file. -/
theorem c9_ledger_robustness_witness :
    check_resume_option (load_progress (some "garbage") (fun _ => none)) true
      = check_resume_option (load_progress none (fun _ => none)) true :=
  c9_ledger_robustness.2.1 "garbage" (fun _ => none) true rfl

/-- C10: every progress record the orchestrator writes — each in-loop
checkpoint and the final save — satisfies
`processed_count = len(processed_ids)` with a duplicate-free id list, because
`save_progress` computes the count from the set itself. -/
theorem c10_jobstate_invariant (fetchOk processOk saveOk : Nat → Bool)
    (rm : Bool) (ids0 ids : List Nat) (h0 : ids0.Nodup) :
    (∀ x ∈ (download_all_emails fetchOk processOk saveOk rm ids0 ids).st.saves,
        x.2.1.processedCount = x.2.1.processedIds.length ∧ x.2.1.processedIds.Nodup)
    ∧ (∀ fr, (download_all_emails fetchOk processOk saveOk rm ids0 ids).finalSave
          = some fr →
        fr.1.processedCount = fr.1.processedIds.length ∧ fr.1.processedIds.Nodup) := by
  by_cases hids : ids = []
  · subst hids
    constructor
    · intro x hx
      exact absurd hx (List.not_mem_nil x)
    · intro fr hfr
      exact Option.noConfusion hfr
  · rw [download_shape fetchOk processOk saveOk rm ids0 ids hids]
    have hinv := runLoop_progress_inv fetchOk processOk saveOk
      (downloadRemaining rm ids0 ids).length ids.length (downloadRemaining rm ids0 ids) 1
      ⟨ids0, 0, if rm then ids0.length else 0, [], []⟩ h0
      (fun x hx => absurd hx (List.not_mem_nil x))
    constructor
    · exact hinv.2
    · intro fr hfr
      dsimp only at hfr
      split at hfr
      · exact Option.noConfusion hfr
      · injection hfr with hfr
        rw [← hfr]
        exact ⟨rfl, hinv.1⟩

/-- Witness: `c10_jobstate_invariant` applied to the checkpoint record written
at the end of a concrete two-message run. -/
theorem c10_jobstate_invariant_witness :
    (2, mkProgress 2 2 [1, 2], true).2.1.processedCount
        = (2, mkProgress 2 2 [1, 2], true).2.1.processedIds.length
    ∧ (2, mkProgress 2 2 [1, 2], true).2.1.processedIds.Nodup :=
  (c10_jobstate_invariant allOk allOk allOk false [] [1, 2] (by decide)).1
    (2, mkProgress 2 2 [1, 2], true) (by decide)

/-- C7 counterexample: a message whose Subject header declares an undecodable
charset.  `decode_mime_words` raises, `process_email`'s blanket handler returns
False, and NOTHING is written: the message is skipped, not archived under a
placeholder subject, refuting the claimed degradation. -/
theorem c7_counterexample :
    process_email decFail u8empty true true (fun _ => true) 7
        ⟨some [Frag.bytes [65] (some "x-unknown")], none, false, []⟩
      = ⟨false, false, "", []⟩
    ∧ (process_email decFail u8empty true true (fun _ => true) 7
        ⟨some [Frag.bytes [65] (some "x-unknown")], none, false, []⟩).success = false
    ∧ (process_email decFail u8empty true true (fun _ => true) 7
        ⟨some [Frag.bytes [65] (some "x-unknown")], none, false, []⟩).emlWritten = false := by
  exact ⟨by decide, by decide, by decide⟩

/-- C7 (amended): the fixed placeholder subject is the fallback for a MISSING
Subject header (`get('Subject', 'No Subject')`), and such a message is archived
normally; but a Subject whose decoding fails raises out of
`decode_mime_words`, is caught by the per-message handler, and the message is
skipped with nothing written rather than archived under a placeholder. -/
theorem c7_header_decode_amended :
    (∀ (dec : String → List Nat → Except Unit String) (u8 : List Nat → String)
        (attWriteOk : String → Bool) (emailId : Nat),
        process_email dec u8 true true attWriteOk emailId ⟨none, none, false, []⟩
          = ⟨true, true, pad6 emailId ++ "_" ++ "No Subject" ++ ".eml", []⟩)
    ∧ (∀ (dec : String → List Nat → Except Unit String) (u8 : List Nat → String)
        (attWriteOk : String → Bool) (emailId : Nat) (frs : List Frag)
        (sender : Option (List Frag)) (mp : Bool) (parts : List Part),
        decode_mime_words dec u8 frs = Except.error () →
          process_email dec u8 true true attWriteOk emailId ⟨some frs, sender, mp, parts⟩
            = ⟨false, false, "", []⟩) := by
  constructor
  · intro dec u8 w id
    rfl
  · intro dec u8 w id frs sender mp parts h
    have hs : (⟨some frs, sender, mp, parts⟩ : Msg).subject.getD [Frag.str "No Subject"]
        = frs := rfl
    unfold process_email
    rw [if_neg (by decide)]
    split
    · rfl
    · rename_i subj heq
      rw [hs, h] at heq
      exact Except.noConfusion heq

/-- Witness: `c7_header_decode_amended` at a concrete message id, both for the
missing-header fallback and for a failing decode. -/
theorem c7_header_decode_amended_witness :
    process_email decOkEmpty u8empty true true (fun _ => true) 7 ⟨none, none, false, []⟩
        = ⟨true, true, pad6 7 ++ "_" ++ "No Subject" ++ ".eml", []⟩
    ∧ process_email decFail u8empty true true (fun _ => true) 9
        ⟨some [Frag.bytes [66] (some "enc")], none, false, []⟩
        = ⟨false, false, "", []⟩ :=
  ⟨c7_header_decode_amended.1 decOkEmpty u8empty (fun _ => true) 7,
   c7_header_decode_amended.2 decFail u8empty (fun _ => true) 9
     [Frag.bytes [66] (some "enc")] none false [] rfl⟩

/-- Shared lemma for C8: when every attachment-declared filename decodes, the
part walk never raises, whatever the write outcomes. -/
theorem walk_attachments_ok (dec : String → List Nat → Except Unit String)
    (u8 : List Nat → String) (wAtt : String → Bool) (emailId : Nat) :
    ∀ (parts : List Part) (count : Nat) (existing : List String),
      (∀ p ∈ parts, strContains p.dispo "attachment" = true →
          attachment_name_decodes dec u8 p) →
      (walk_attachments dec u8 wAtt emailId parts count existing).2 = true := by
  intro parts
  induction parts with
  | nil =>
    intro count ex _
    rfl
  | cons p ps ih =>
    intro count ex h
    rw [walk_attachments]
    by_cases hd : strContains p.dispo "attachment" = true
    · rw [if_pos hd]
      cases hfn : attachment_filename dec u8 emailId (count + 1) p with
      | error e =>
        exfalso
        have hdec := h p (List.mem_cons_self p ps) hd
        unfold attachment_filename at hfn
        cases hpf : p.filename with
        | none =>
          rw [hpf] at hfn
          exact Except.noConfusion hfn
        | some frs =>
          rw [hpf] at hfn
          obtain ⟨r, hr⟩ := hdec frs hpf
          have hfn2 : Except.map sanitize_filename (decode_mime_words dec u8 frs)
              = Except.error e := hfn
          rw [hr] at hfn2
          exact Except.noConfusion hfn2
      | ok fn =>
        exact ih (count + 1) _ (fun q hq => h q (List.mem_cons_of_mem p hq))
    · rw [if_neg hd]
      exact ih count ex (fun q hq => h q (List.mem_cons_of_mem p hq))

/-- C8 counterexample: the archive file is written, then an attachment's
declared filename fails to decode; the exception escapes `save_attachment`
(the local try only guards the write), `process_email` reports False, and the
message counts as failed even though its primary archive exists — refuting
"success whenever the primary archive file was written". -/
theorem c8_counterexample :
    (process_email decFail u8empty true true (fun _ => true) 7
        ⟨none, none, true,
          [⟨"attachment; filename=x", some [Frag.bytes [1] (some "bad")],
            "application/pdf"⟩]⟩).success = false
    ∧ (process_email decFail u8empty true true (fun _ => true) 7
        ⟨none, none, true,
          [⟨"attachment; filename=x", some [Frag.bytes [1] (some "bad")],
            "application/pdf"⟩]⟩).emlWritten = true := by
  exact ⟨by decide, by decide⟩

/-- C8 (amended): attachment WRITE failures are contained — whenever the
headers decode, the archive write succeeds and every attachment-declared
filename decodes, `process_email` returns success whatever the per-file write
outcomes; but an exception in the walk itself (e.g. a filename-decode failure)
does fail the already-archived message. -/
theorem c8_attachment_containment_amended
    (dec : String → List Nat → Except Unit String) (u8 : List Nat → String)
    (attWriteOk : String → Bool) (emailId : Nat) (msg : Msg)
    (hsub : ∃ r, decode_mime_words dec u8 (msg.subject.getD [Frag.str "No Subject"])
        = Except.ok r)
    (hsend : ∃ r, decode_mime_words dec u8 (msg.sender.getD [Frag.str "Unknown Sender"])
        = Except.ok r)
    (hatt : ∀ p ∈ msg.parts, strContains p.dispo "attachment" = true →
        attachment_name_decodes dec u8 p) :
    (process_email dec u8 true true attWriteOk emailId msg).success = true
    ∧ (process_email dec u8 true true attWriteOk emailId msg).emlWritten = true := by
  obtain ⟨r, hr⟩ := hsub
  obtain ⟨r2, hr2⟩ := hsend
  rcases msg with ⟨subj, send, mp, parts⟩
  unfold process_email
  rw [hr, hr2]
  cases mp with
  | false => exact ⟨rfl, rfl⟩
  | true =>
    have hw := walk_attachments_ok dec u8 attWriteOk emailId parts 0 [] hatt
    refine ⟨?_, ?_⟩
    · show (if (walk_attachments dec u8 attWriteOk emailId parts 0 []).2 = true
          then (⟨true, true,
              pad6 emailId ++ "_" ++ (⟨(sanitize_filename r).data.take 50⟩ : String) ++ ".eml",
              (walk_attachments dec u8 attWriteOk emailId parts 0 []).1⟩ : PEResult)
          else ⟨false, true,
              pad6 emailId ++ "_" ++ (⟨(sanitize_filename r).data.take 50⟩ : String) ++ ".eml",
              (walk_attachments dec u8 attWriteOk emailId parts 0 []).1⟩).success = true
      rw [hw]
      rfl
    · show (if (walk_attachments dec u8 attWriteOk emailId parts 0 []).2 = true
          then (⟨true, true,
              pad6 emailId ++ "_" ++ (⟨(sanitize_filename r).data.take 50⟩ : String) ++ ".eml",
              (walk_attachments dec u8 attWriteOk emailId parts 0 []).1⟩ : PEResult)
          else ⟨false, true,
              pad6 emailId ++ "_" ++ (⟨(sanitize_filename r).data.take 50⟩ : String) ++ ".eml",
              (walk_attachments dec u8 attWriteOk emailId parts 0 []).1⟩).emlWritten = true
      rw [hw]
      rfl

/-- Witness: `c8_attachment_containment_amended` on a message with one
attachment whose write FAILS: the message still succeeds. -/
theorem c8_attachment_containment_amended_witness :
    (process_email decOkEmpty u8empty true true (fun _ => false) 7
        ⟨none, none, true, [⟨"attachment", none, "application/pdf"⟩]⟩).success = true
    ∧ (process_email decOkEmpty u8empty true true (fun _ => false) 7
        ⟨none, none, true, [⟨"attachment", none, "application/pdf"⟩]⟩).emlWritten = true :=
  c8_attachment_containment_amended decOkEmpty u8empty (fun _ => false) 7
    ⟨none, none, true, [⟨"attachment", none, "application/pdf"⟩]⟩
    ⟨"No Subject" ++ "", rfl⟩ ⟨"Unknown Sender" ++ "", rfl⟩
    (by
      intro p hp hc frs hfrs
      rw [List.mem_singleton] at hp
      subst hp
      exact Option.noConfusion hfrs)

end Roundcube
